import Mathlib

/-!
Verification development for the xgen Rust code-generation backend and the
minInclusive/maxInclusive schema-reader handlers.

The Go source is shallowly embedded as executable Lean definitions.  Strings
are manipulated through structural helpers over `List Char` so that every
definition evaluates inside the kernel.  Go `float64` facet values are
modelled as rationals; Go maps used only for membership are modelled as
association lists; the global `fieldNameCount` map is modelled as a function
`String → Nat` threaded through the generator state.
-/

namespace Xgen

/-! ### Basic string helpers (structural, kernel-evaluable) -/

/-- Split a character list at every occurrence of the separator `c`.
Mirrors Go `strings.Split` with a one-character separator. -/
def splitCharAux (c : Char) : List Char → List Char → List (List Char)
  | [], acc => [acc.reverse]
  | a :: as, acc =>
    if a = c then acc.reverse :: splitCharAux c as [] else splitCharAux c as (a :: acc)

/-- Go `strings.Split s c` for a single-character separator. -/
def splitChar (c : Char) (s : String) : List String :=
  (splitCharAux c s.data []).map String.mk

/-- Replace every occurrence of the character `c` by the character list `r`. -/
def replaceCharStr (c : Char) (r : List Char) : List Char → List Char
  | [] => []
  | a :: as =>
    if a = c then r ++ replaceCharStr c r as else a :: replaceCharStr c r as

/-- Go `strings.ReplaceAll s c r` for a single-character pattern. -/
def strReplaceChar (s : String) (c : Char) (r : String) : String :=
  ⟨replaceCharStr c r.data s.data⟩

/-- Concatenation of a list of strings (Go repeated `+=`). -/
def strJoin (l : List String) : String :=
  ⟨(l.map String.data).flatten⟩

/-- Go `strings.ToUpper` restricted to the ASCII case mapping. -/
def goToUpper (s : String) : String :=
  ⟨s.data.map Char.toUpper⟩

/-- Character for a decimal digit `d < 10`. -/
def digitChar (d : Nat) : Char := Char.ofNat (48 + d)

/-- Decimal digits of `n`, most significant first; `fuel ≥ n` suffices. -/
def natDecimalAux : Nat → Nat → List Char
  | 0, _ => []
  | fuel + 1, n =>
    if n = 0 then [] else natDecimalAux fuel (n / 10) ++ [digitChar (n % 10)]

/-- Decimal rendering of a natural number: model of Go `fmt` `%d` on
non-negative values. -/
def natDecimal (n : Nat) : String :=
  if n = 0 then "0" else ⟨natDecimalAux n n⟩

/-- Decimal rendering of a Go `int` (model of `%d`). -/
def intDecimal (i : Int) : String :=
  if i < 0 then "-" ++ natDecimal (-i).toNat else natDecimal i.toNat

/-- Zero-pad a digit string on the left to 6 characters. -/
def padSix (s : String) : String :=
  ⟨List.replicate (6 - s.data.length) '0' ++ s.data⟩

/-- Model of Go `fmt` `%f` applied to a facet value: fixed-point rendering
with six fractional digits.  The rational is scaled by `10^6` and rounded
half away from zero using only integer arithmetic on the numerator and
denominator (ties at the binary level of `float64` are below the facets
this development evaluates). -/
def qFormatF (q : ℚ) : String :=
  let neg : Bool := decide (q.num < 0)
  let n : Int := if q.num < 0 then -q.num else q.num
  let d : Int := (q.den : Int)
  let m : Nat := ((2 * (n * 1000000) + d).ediv (2 * d)).toNat
  (if neg then "-" else "") ++ natDecimal (m / 1000000) ++ "." ++ padSix (natDecimal (m % 1000000))

/-- Numeric value of a decimal digit character, if any. -/
def digitVal (c : Char) : Option Nat :=
  if '0' ≤ c ∧ c ≤ '9' then some (c.toNat - 48) else none

/-- Take a maximal run of decimal digits from the front of a character list. -/
def takeDigits : List Char → List Nat × List Char
  | [] => ([], [])
  | c :: cs =>
    match digitVal c with
    | some d => ((d :: (takeDigits cs).1), (takeDigits cs).2)
    | none => ([], c :: cs)

/-- Natural number denoted by a digit list (most significant first). -/
def digitsToNat (ds : List Nat) : Nat :=
  ds.foldl (fun acc d => 10 * acc + d) 0

/-- Modelled from Go `strconv.ParseFloat` (standard library): parses the
decimal forms `[sign] digits [. digits] [e|E [sign] digits]` and
`[sign] . digits [exp]` into a rational.  Hexadecimal floats, digit-group
underscores and the non-finite literals `inf`/`nan` are outside this
model and are treated as malformed. -/
def parseFloatQ (s : String) : Option ℚ :=
  let cs := s.data
  let signAndRest : Bool × List Char :=
    match cs with
    | '+' :: r => (false, r)
    | '-' :: r => (true, r)
    | _ => (false, cs)
  let neg := signAndRest.1
  let (intDs, rest1) := takeDigits signAndRest.2
  let (fracDs, rest2) :=
    match rest1 with
    | '.' :: r => takeDigits r
    | _ => ([], rest1)
  let dotSeen : Bool :=
    match rest1 with
    | '.' :: _ => true
    | _ => false
  if intDs = [] ∧ fracDs = [] then none
  else
    let mant : ℚ := (digitsToNat intDs : ℚ) + (digitsToNat fracDs : ℚ) / ((10 : ℚ) ^ fracDs.length)
    let afterMant := if dotSeen then rest2 else rest1
    match afterMant with
    | [] => some ((if neg then -1 else 1) * mant)
    | 'e' :: r =>
      let eSign : Bool × List Char :=
        match r with
        | '+' :: r2 => (false, r2)
        | '-' :: r2 => (true, r2)
        | _ => (false, r)
      let (expDs, rest3) := takeDigits eSign.2
      if expDs = [] ∨ rest3 ≠ [] then none
      else some ((if neg then -1 else 1) * mant *
        (if eSign.1 then ((10 : ℚ) ^ digitsToNat expDs)⁻¹ else (10 : ℚ) ^ digitsToNat expDs))
    | 'E' :: r =>
      let eSign : Bool × List Char :=
        match r with
        | '+' :: r2 => (false, r2)
        | '-' :: r2 => (true, r2)
        | _ => (false, r)
      let (expDs, rest3) := takeDigits eSign.2
      if expDs = [] ∨ rest3 ≠ [] then none
      else some ((if neg then -1 else 1) * mant *
        (if eSign.1 then ((10 : ℚ) ^ digitsToNat expDs)⁻¹ else (10 : ℚ) ^ digitsToNat expDs))
    | _ => none

/-- The value the Go call `strconv.ParseFloat(s, 64)` stores when its error
is discarded: the parsed value on success and zero on a syntax error. -/
def goParseFloat (s : String) : ℚ :=
  (parseFloatQ s).getD 0

/-! ### Data model (mirrors the xgen Go types used by the embedded files) -/

/-- Facets attached to a simple type or element.  `Pattern` models the
compiled `*regexp.Regexp` by its source text (the generator only calls
`Pattern.String()`); `Min`/`Max` model `float64` facet values as rationals. -/
structure Restriction where
  hasMinLength : Bool := false
  MinLength : Int := 0
  hasMaxLength : Bool := false
  MaxLength : Int := 0
  hasMin : Bool := false
  Min : ℚ := 0
  hasMax : Bool := false
  Max : ℚ := 0
  Pattern : Option String := none
  Enum : List String := []
  deriving DecidableEq

/-- A simple-type declaration.  `MemberTypes` models the Go
`map[string]string` as an association list whose key set is duplicate-free
in any state produced by the reader. -/
structure SimpleType where
  Name : String := ""
  Base : String := ""
  Doc : String := ""
  MemberTypes : List (String × String) := []
  Restriction : Restriction := {}
  List : Bool := false
  Union : Bool := false
  deriving DecidableEq

/-- An element declaration.  `TypeName` embeds the Go field `Type`
(`Type` is a Lean keyword). -/
structure Element where
  Name : String := ""
  TypeName : String := ""
  Doc : String := ""
  Restriction : Restriction := {}
  Plural : Bool := false
  Optional : Bool := false
  deriving DecidableEq

/-- An attribute declaration.  `TypeName` embeds the Go field `Type`. -/
structure Attribute where
  Name : String := ""
  TypeName : String := ""
  Doc : String := ""
  Restriction : Restriction := {}
  Plural : Bool := false
  Optional : Bool := false
  deriving DecidableEq

/-- A group declaration; `Groups` holds nested group references. -/
inductive Group where
  | mk (Name Ref Doc : String) (Plural : Bool) (Elements : List Element) (Groups : List Group)

/-- Name of a group. -/
def Group.Name : Group → String
  | .mk n _ _ _ _ _ => n

/-- Reference of a group. -/
def Group.Ref : Group → String
  | .mk _ r _ _ _ _ => r

/-- Documentation of a group. -/
def Group.Doc : Group → String
  | .mk _ _ d _ _ _ => d

/-- Plurality flag of a group. -/
def Group.Plural : Group → Bool
  | .mk _ _ _ p _ _ => p

/-- Elements of a group. -/
def Group.Elements : Group → List Element
  | .mk _ _ _ _ es _ => es

/-- Nested groups of a group. -/
def Group.Groups : Group → List Group
  | .mk _ _ _ _ _ gs => gs

/-- An attribute-group declaration. -/
structure AttributeGroup where
  Name : String := ""
  Ref : String := ""
  Doc : String := ""
  Attributes : List Attribute := []
  deriving DecidableEq

/-- A complex-type declaration. -/
structure ComplexType where
  Name : String := ""
  Base : String := ""
  Doc : String := ""
  AttributeGroup : List AttributeGroup := []
  Attributes : List Attribute := []
  Groups : List Group := []
  Elements : List Element := []

/-- A top-level declaration of the ProtoTree. -/
inductive ProtoDecl where
  | simpleType (v : SimpleType)
  | complexType (v : ComplexType)
  | group (v : Group)
  | attributeGroup (v : AttributeGroup)
  | element (v : Element)
  | attribute (v : Attribute)

/-- Generator state: ProtoTree, the `StructAST` memo (Go map modelled as an
association list, newest binding first), the accumulated output `Field`, and
the global `fieldNameCount` map modelled as a function. -/
structure CodeGenerator where
  ProtoTree : List (Option ProtoDecl)
  StructAST : List (String × String) := []
  Field : String := ""
  fieldNameCount : String → Nat := fun _ => 0

/-- Lookup in the `StructAST` memo (Go map membership/overwrite semantics:
the newest binding for a key wins). -/
def lookupAST : List (String × String) → String → Option String
  | [], _ => none
  | (k, v) :: rest, key => if k = key then some v else lookupAST rest key

/-! ### Helpers of this repository that live outside the embedded files,
modelled from the spec -/

/-- Modelled from the spec: `MakeFirstUpperCase` (shared utility, not in the
embedded files) upper-cases the first letter of a segment. -/
def MakeFirstUpperCase (s : String) : String :=
  match s.data with
  | [] => ""
  | c :: cs => ⟨Char.toUpper c :: cs⟩

/-- One step of the camel-to-snake conversion. -/
def toSnakeAux : List Char → List Char
  | [] => []
  | [c] => [c.toLower]
  | c1 :: c2 :: rest =>
    if (c1.isLower ∨ c1.isDigit) ∧ c2.isUpper then
      c1.toLower :: '_' :: toSnakeAux (c2 :: rest)
    else
      c1.toLower :: toSnakeAux (c2 :: rest)

/-- Modelled from the spec: `ToSnakeCase` (shared utility, not in the
embedded files) converts an identifier to the backend's snake_case
convention: an underscore is inserted between a lower-case letter or digit
and a following upper-case letter, and the result is lower-cased. -/
def ToSnakeCase (s : String) : String :=
  ⟨toSnakeAux s.data⟩

/-- Modelled from the spec: `trimNSPrefix` (shared utility, not in the
embedded files) strips a namespace qualifier, returning the part after the
first colon when one is present. -/
def trimNSPrefix (s : String) : String :=
  match splitChar ':' s with
  | _ :: p :: _ => p
  | _ => s

/-- Declaration name of a ProtoTree entry. -/
def declName : ProtoDecl → String
  | .simpleType v => v.Name
  | .complexType v => v.Name
  | .group v => v.Name
  | .attributeGroup v => v.Name
  | .element v => v.Name
  | .attribute v => v.Name

/-- First ProtoTree declaration with the given name. -/
def lookupDecl (name : String) : List (Option ProtoDecl) → Option ProtoDecl
  | [] => none
  | none :: rest => lookupDecl name rest
  | some d :: rest => if declName d = name then some d else lookupDecl name rest

/-- Modelled from the spec: the Type Resolver walk.  A simple type without
enumeration facets recurses on its base; any other declaration, or an
unresolved name, is returned as-is (pass-through).  Recursion depth is
bounded by the ProtoTree size. -/
def resolveBase : Nat → String → List (Option ProtoDecl) → String
  | 0, n, _ => n
  | fuel + 1, n, tree =>
    match lookupDecl n tree with
    | some (.simpleType st) =>
      if st.Restriction.Enum = [] then resolveBase fuel ( trimNSPrefix st.Base) tree else n
    | _ => n

/-- Modelled from the spec: `getBasefromSimpleType` (Type Resolver §4.3, not
in the embedded files) resolves a type name through the restriction/base
chain of simple types found in the ProtoTree. -/
def getBasefromSimpleType (name : String) (tree : List (Option ProtoDecl)) : String :=
  resolveBase (tree.length + 1) name tree

/-- The Type Resolver walk with an error on fuel exhaustion; the fuel chosen
by `GetValueType` exceeds any acyclic chain length, so exhaustion means a
resolution cycle. -/
def resolveBaseE : Nat → String → List (Option ProtoDecl) → String × Option String
  | 0, _, _ => ("", some "cycle in type resolution")
  | fuel + 1, n, tree =>
    match lookupDecl n tree with
    | some (.simpleType st) =>
      if st.Restriction.Enum = [] then resolveBaseE fuel ( trimNSPrefix st.Base) tree
      else (n, none)
    | _ => (n, none)

/-- Modelled from the spec: `GetValueType` (Type Resolver as used by the
Schema Reader end-handlers, not in the embedded files).  Same walk as
`getBasefromSimpleType`; a resolution cycle is a fatal error reported
through the second component. -/
def GetValueType (name : String) (tree : List (Option ProtoDecl)) : String × Option String :=
  resolveBaseE (tree.length + 1) name tree

/-- Modelled from the spec: `toSortedPairs` (shared utility, not in the
embedded files) iterates a Go map in deterministic key order; the map is
modelled as an association list and the function as a key-based sort. -/
def toSortedPairs (m : List (String × String)) : List (String × String) :=
  List.insertionSort (fun a b => a.1 ≤ b.1) m

/-- Modelled from the spec: `genFieldComment` (shared utility, not in the
embedded files) renders the declaration's documentation as a line comment;
documentation text extraction is outside the specified core. -/
def genFieldComment (name doc tag : String) : String :=
  if doc = "" then "" else tag ++ " " ++ name ++ ": " ++ doc ++ "\n"

/-! ### Embedding of genRust.go -/

/-- The backend's built-in-type table (`rustBuildinType`). -/
def rustBuildinType : List String :=
  ["i8", "i16", "i32", "i64", "i128", "isize",
   "u8", "u16", "u32", "u64", "u128", "usize",
   "f32", "f64", "Vec<char>", "Vec<String>", "Vec<u8>",
   "bool", "char", "String"]

/-- The backend's reserved-word table (`rustKeywords`). -/
def rustKeywords : List String :=
  ["as", "break", "const", "continue", "crate", "dyn", "else", "enum",
   "extern", "false", "fn", "for", "if", "impl", "in", "let", "loop",
   "match", "mod", "move", "mut", "pub", "ref", "return", "Self", "self",
   "static", "struct", "super", "trait", "true", "type", "unsafe", "use",
   "where", "while", "abstract", "async", "await", "become", "box", "do",
   "final", "macro", "override", "priv", "try", "typeof", "unsized",
   "virtual", "yield"]

/-- `isRustBuiltInType`. -/
def isRustBuiltInType (typeName : String) : Bool :=
  rustBuildinType.contains typeName

/-- `commonDerives`. -/
def commonDerives : String :=
  "#[cfg_attr(feature = \"derive_default\", derive(Default))]\n#[cfg_attr(feature = \"derive_serde\", derive(Serialize, Deserialize))]\n"

/-- `genRustFieldName`. -/
def genRustFieldName (name : String) : String :=
  let fieldName := strJoin ((splitChar ':' name).map MakeFirstUpperCase)
  let tmp := strJoin ((splitChar '.' fieldName).map MakeFirstUpperCase)
  let fieldName := ToSnakeCase (strReplaceChar tmp '-' "")
  if rustKeywords.contains fieldName then fieldName ++ "_attr" else fieldName

/-- The normalization part of `genRustStructName` (segment splitting,
casing, separator stripping). -/
def genRustStructNameCore (name : String) : String :=
  let structName := strJoin ((splitChar ':' name).map MakeFirstUpperCase)
  let tmp := strJoin ((splitChar '.' structName).map MakeFirstUpperCase)
  strReplaceChar (strReplaceChar tmp '-' "") '_' ""

/-- `genRustStructName`; the global `fieldNameCount` map is passed and
returned explicitly. -/
def genRustStructName (cnt : String → Nat) (name : String) (unique : Bool) :
    String × (String → Nat) :=
  let structName := genRustStructNameCore name
  if unique then
    let cnt2 := fun k => if k = structName then cnt structName + 1 else cnt k
    let count := cnt structName + 1
    (if count ≠ 1 then structName ++ natDecimal count else structName, cnt2)
  else (structName, cnt)

/-- `genRustFieldType`. -/
def genRustFieldType (name : String) : String :=
  if rustBuildinType.contains name then name
  else
    let fieldType := genRustStructNameCore name
    if fieldType ≠ "" then fieldType else "char"

/-- `escapeRustString`. -/
def escapeRustString (s : String) : String :=
  strReplaceChar (strReplaceChar s '\\' "\\\\") '\"' "\\\""

/-- `genRustFieldRename`. -/
def genRustFieldRename (name : String) : String :=
  match splitChar ':' name with
  | _ :: p :: _ => p
  | _ => if name = "value" then "$value" else name

/-- The minimum-length inline check (error identifier 1001). -/
def rustMinLengthCheck (fieldName : String) (n : Int) : String :=
  "\nif self." ++ fieldName ++ ".chars().count() < " ++ intDecimal n ++ " \x7b\n" ++
  "return Err(ValidationError::new(1001, \"" ++ fieldName ++
  " is shorter than the minimum length of " ++ intDecimal n ++ "\".to_string()));\n\x7d"

/-- The maximum-length inline check (error identifier 1002). -/
def rustMaxLengthCheck (fieldName : String) (n : Int) : String :=
  "\nif self." ++ fieldName ++ ".chars().count() > " ++ intDecimal n ++ " \x7b\n" ++
  "\treturn Err(ValidationError::new(1002, \"" ++ fieldName ++
  " exceeds the maximum length of " ++ intDecimal n ++ "\".to_string()));\n\x7d"

/-- The minimum-value inline check (error identifier 1003). -/
def rustMinValueCheck (fieldName : String) (q : ℚ) : String :=
  "\nif self." ++ fieldName ++ " < " ++ qFormatF q ++ " \x7b\n" ++
  "\treturn Err(ValidationError::new(1003, \"" ++ fieldName ++
  " is less than the minimum value of " ++ qFormatF q ++ "\".to_string()));\n\x7d"

/-- The maximum-value inline check (error identifier 1004). -/
def rustMaxValueCheck (fieldName : String) (q : ℚ) : String :=
  "\nif self." ++ fieldName ++ " > " ++ qFormatF q ++ " \x7b\n" ++
  "\treturn Err(ValidationError::new(1004, \"" ++ fieldName ++
  " exceeds the maximum value of " ++ qFormatF q ++ "\".to_string()));\n\x7d"

/-- The pattern inline check (error identifier 1005). -/
def rustPatternCheck (fieldName patternStr : String) : String :=
  "\nlet pattern = Regex::new(\"" ++ patternStr ++ "\").unwrap();\n" ++
  "if !pattern.is_match(&self." ++ fieldName ++ ") \x7b\n" ++
  "\treturn Err(ValidationError::new(1005, \"" ++ fieldName ++
  " does not match the required pattern\".to_string()));\n\x7d"

/-- `genRustFieldCode`: returns `(content, validations)` for one field. -/
def genRustFieldCode (name ftype : String) (plural optional : Bool)
    (restriction : Option Restriction) (untagged : Bool) : String × String :=
  let fieldName := genRustFieldName name
  let fieldType := genRustFieldType ftype
  let validations : String :=
    if isRustBuiltInType fieldType then
      match restriction with
      | none => ""
      | some r =>
        (if r.hasMinLength then rustMinLengthCheck fieldName r.MinLength else "") ++
        (if r.hasMaxLength then rustMaxLengthCheck fieldName r.MaxLength else "") ++
        (if r.hasMin then rustMinValueCheck fieldName r.Min else "") ++
        (if r.hasMax then rustMaxValueCheck fieldName r.Max else "") ++
        (match r.Pattern with
         | some p => if fieldType = "String" then rustPatternCheck fieldName (escapeRustString p) else ""
         | none => "")
    else
      if optional then
        if plural then
          "\nif let Some(ref " ++ fieldName ++ "_vec) = self." ++ fieldName ++
          " \x7b for item in " ++ fieldName ++
          "_vec \x7b if let Err(e) = item.validate() \x7b return Err(e); \x7d \x7d \x7d"
        else
          "\nif let Some(ref " ++ fieldName ++ "_value) = self." ++ fieldName ++
          " \x7b if let Err(e) = " ++ fieldName ++
          "_value.validate() \x7b return Err(e); \x7d \x7d"
      else if plural then
        "\nfor item in &self." ++ fieldName ++
        " \x7b if let Err(e) = item.validate() \x7b return Err(e); \x7d \x7d"
      else
        "\nif let Err(e) = self." ++ fieldName ++ ".validate() \x7b return Err(e); \x7d"
  let fieldType := if plural then "Vec<" ++ fieldType ++ ">" else fieldType
  let rename := if untagged then "$value" else genRustFieldRename name
  let content : String :=
    if optional then
      "\n#[cfg_attr( feature = \"derive_serde\", serde(rename = \"" ++ rename ++
      "\", skip_serializing_if = \"Option::is_none\") )]\npub " ++ genRustFieldName name ++
      ": Option<" ++ fieldType ++ ">,"
    else
      "\n#[cfg_attr( feature = \"derive_serde\", serde(rename = \"" ++ rename ++
      "\") )]\npub " ++ fieldName ++ ": " ++ fieldType ++ ","
  (content, validations)

/-- `genRustStructCode`. -/
def genRustStructCode (name doc fieldContent validations : String) (untagged : Bool) : String :=
  let extraTags :=
    if untagged then "#[cfg_attr( feature = \"derive_serde\", serde(transparent) )]\n" else ""
  let content :=
    "\n" ++ genFieldComment name doc "//" ++ commonDerives ++ extraTags ++
    "pub struct " ++ name ++ " \x7b" ++ strReplaceChar fieldContent '\n' "\n\t" ++ "\n\x7d\n"
  content ++
    "\nimpl " ++ name ++
    " \x7b\n\tpub fn validate(&self) -> Result<(), ValidationError> \x7b" ++
    strReplaceChar validations '\n' "\n\t\t" ++ "\n\t\tOk(())\n\t\x7d\n\x7d\n"

/-- `genRustEnumCode`. -/
def genRustEnumCode (name doc fieldContent : String) : String :=
  "\n" ++ doc ++ commonDerives ++ "pub enum " ++ name ++
  " \x7b\n\t#[cfg_attr(feature = \"derive_default\", default)]\n" ++ fieldContent ++
  "\x7d\n" ++
  "\nimpl " ++ name ++
  " \x7b\n\tpub fn validate(&self) -> Result<(), ValidationError> \x7b\n\t\tOk(())\n\t\x7d\n\x7d\n"

/-- One enumeration tag line of the `RustSimpleType` enumeration path. -/
def rustEnumTag (enumValue : String) : String :=
  "\t#[cfg_attr( feature = \"derive_serde\", serde(rename = \"" ++ enumValue ++
  "\") )]\n\tCode" ++ goToUpper enumValue ++ ",\n"

/-- The member loop of the `RustSimpleType` union path: accumulated
`(content, validation)` over the sorted member pairs. -/
def rustUnionFields (tree : List (Option ProtoDecl)) (name : String)
    (r : Restriction) : List (String × String) → String × String
  | [] => ("", "")
  | (memberName, memberType) :: rest =>
    let memberType :=
      if memberType = "" then getBasefromSimpleType memberName tree else memberType
    let cv := genRustFieldCode name memberType false false (some r) false
    let tail := rustUnionFields tree name r rest
    (cv.1 ++ tail.1, cv.2 ++ tail.2)

/-- The four field loops of `RustComplexType` (attribute groups, attributes,
groups, elements, in that order). -/
def rustComplexFields (tree : List (Option ProtoDecl)) (v : ComplexType) : String × String :=
  let f1 := v.AttributeGroup.foldl
    (fun acc ag =>
      let ft := getBasefromSimpleType ( trimNSPrefix ag.Ref) tree
      let cv := genRustFieldCode ag.Name ft false false none false
      (acc.1 ++ cv.1, acc.2 ++ cv.2)) ("", "")
  let f2 := v.Attributes.foldl
    (fun acc a =>
      let cv := genRustFieldCode a.Name "String" a.Plural a.Optional none false
      (acc.1 ++ cv.1, acc.2 ++ cv.2)) f1
  let f3 := v.Groups.foldl
    (fun acc g =>
      let ft := getBasefromSimpleType ( trimNSPrefix g.Ref) tree
      let cv := genRustFieldCode g.Name ft g.Plural false none false
      (acc.1 ++ cv.1, acc.2 ++ cv.2)) f2
  v.Elements.foldl
    (fun acc e =>
      let ft := getBasefromSimpleType ( trimNSPrefix e.TypeName) tree
      let cv := genRustFieldCode e.Name ft e.Plural e.Optional none false
      (acc.1 ++ cv.1, acc.2 ++ cv.2)) f3

/-- The base-type step of `RustComplexType`: a wrapped `value` field when the
base is built-in, a flattened field otherwise. -/
def rustComplexBase (tree : List (Option ProtoDecl)) (v : ComplexType) : String × String :=
  if v.Base ≠ "" then
    let fieldType := getBasefromSimpleType ( trimNSPrefix v.Base) tree
    if isRustBuiltInType v.Base then
      genRustFieldCode "value" fieldType false false none false
    else
      ("\t#[cfg_attr( feature = \"derive_serde\", serde(flatten) )]\n\tpub " ++
       genRustFieldName fieldType ++ ": " ++ fieldType ++ ",\n", "")
  else ("", "")

/-- `RustSimpleType`. -/
def RustSimpleType (gen : CodeGenerator) (v : SimpleType) : CodeGenerator :=
  if v.List ∧ lookupAST gen.StructAST v.Name = none then
    let fieldType := getBasefromSimpleType ( trimNSPrefix v.Base) gen.ProtoTree
    let cv := genRustFieldCode v.Name fieldType true false (some v.Restriction) false
    let sn := genRustStructName gen.fieldNameCount v.Name true
    { gen with StructAST := (v.Name, cv.1) :: gen.StructAST,
               fieldNameCount := sn.2,
               Field := gen.Field ++ genRustStructCode sn.1 v.Doc cv.1 cv.2 false }
  else if v.Union ∧ v.MemberTypes ≠ [] then
    if lookupAST gen.StructAST v.Name = none then
      let cv := rustUnionFields gen.ProtoTree v.Name v.Restriction (toSortedPairs v.MemberTypes)
      let sn := genRustStructName gen.fieldNameCount v.Name true
      { gen with StructAST := (v.Name, cv.1) :: gen.StructAST,
                 fieldNameCount := sn.2,
                 Field := gen.Field ++ genRustStructCode sn.1 "" cv.1 cv.2 false }
    else gen
  else if v.Restriction.Enum ≠ [] ∧ v.Base = "String" then
    let fieldContent := strJoin (v.Restriction.Enum.map rustEnumTag)
    let sn := genRustStructName gen.fieldNameCount v.Name true
    { gen with StructAST := (v.Name, fieldContent) :: gen.StructAST,
               fieldNameCount := sn.2,
               Field := gen.Field ++
                 genRustEnumCode sn.1 (genFieldComment v.Name v.Doc "//") fieldContent }
  else if lookupAST gen.StructAST v.Name = none then
    let fieldType := getBasefromSimpleType ( trimNSPrefix v.Base) gen.ProtoTree
    let cv := genRustFieldCode v.Name fieldType false false (some v.Restriction) true
    let sn := genRustStructName gen.fieldNameCount v.Name true
    { gen with StructAST := (v.Name, cv.1) :: gen.StructAST,
               fieldNameCount := sn.2,
               Field := gen.Field ++ genRustStructCode sn.1 v.Doc cv.1 cv.2 true }
  else gen

/-- `RustComplexType`.  When the name is already memoized the freshly
computed text is only printed to standard output (a side effect outside the
generator state), so the state is returned unchanged. -/
def RustComplexType (gen : CodeGenerator) (v : ComplexType) : CodeGenerator :=
  let cv := rustComplexFields gen.ProtoTree v
  let bp := rustComplexBase gen.ProtoTree v
  let content := cv.1 ++ bp.1
  let validation := cv.2 ++ bp.2
  if lookupAST gen.StructAST v.Name = none then
    let sn := genRustStructName gen.fieldNameCount v.Name true
    { gen with StructAST := (v.Name, content) :: gen.StructAST,
               fieldNameCount := sn.2,
               Field := gen.Field ++ genRustStructCode sn.1 v.Doc content validation false }
  else gen

/-- The element and nested-group loops of `RustGroup`. -/
def rustGroupFields (tree : List (Option ProtoDecl)) (v : Group) : String × String :=
  let f1 := v.Elements.foldl
    (fun acc e =>
      let ft := getBasefromSimpleType ( trimNSPrefix e.TypeName) tree
      let cv := genRustFieldCode e.Name ft e.Plural e.Optional (some e.Restriction) false
      (acc.1 ++ cv.1, acc.2 ++ cv.2)) ("", "")
  v.Groups.foldl
    (fun acc g =>
      let ft := getBasefromSimpleType ( trimNSPrefix g.Ref) tree
      let cv := genRustFieldCode g.Name ft g.Plural false none false
      (acc.1 ++ cv.1, acc.2 ++ cv.2)) f1

/-- `RustGroup`. -/
def RustGroup (gen : CodeGenerator) (v : Group) : CodeGenerator :=
  if lookupAST gen.StructAST v.Name = none then
    let cv := rustGroupFields gen.ProtoTree v
    let sn := genRustStructName gen.fieldNameCount v.Name true
    { gen with StructAST := (v.Name, cv.1) :: gen.StructAST,
               fieldNameCount := sn.2,
               Field := gen.Field ++ genRustStructCode sn.1 v.Doc cv.1 cv.2 false }
  else gen

/-- The attribute loop of `RustAttributeGroup`. -/
def rustAttributeGroupFields (tree : List (Option ProtoDecl)) (v : AttributeGroup) :
    String × String :=
  v.Attributes.foldl
    (fun acc a =>
      let ft := getBasefromSimpleType ( trimNSPrefix a.TypeName) tree
      let cv := genRustFieldCode a.Name ft a.Plural a.Optional (some a.Restriction) false
      (acc.1 ++ cv.1, acc.2 ++ cv.2)) ("", "")

/-- `RustAttributeGroup`. -/
def RustAttributeGroup (gen : CodeGenerator) (v : AttributeGroup) : CodeGenerator :=
  if lookupAST gen.StructAST v.Name = none then
    let cv := rustAttributeGroupFields gen.ProtoTree v
    let sn := genRustStructName gen.fieldNameCount v.Name true
    { gen with StructAST := (v.Name, cv.1) :: gen.StructAST,
               fieldNameCount := sn.2,
               Field := gen.Field ++ genRustStructCode sn.1 v.Doc cv.1 cv.2 false }
  else gen

/-- `RustElement`; the struct name comes from `genRustFieldName`, without the
uniqueness counter. -/
def RustElement (gen : CodeGenerator) (v : Element) : CodeGenerator :=
  if lookupAST gen.StructAST v.Name = none then
    let fieldType := getBasefromSimpleType ( trimNSPrefix v.TypeName) gen.ProtoTree
    let cv := genRustFieldCode v.Name fieldType v.Plural v.Optional (some v.Restriction) false
    { gen with StructAST := (v.Name, cv.1) :: gen.StructAST,
               Field := gen.Field ++
                 genRustStructCode (genRustFieldName v.Name) v.Doc cv.1 cv.2 false }
  else gen

/-- `RustAttribute`. -/
def RustAttribute (gen : CodeGenerator) (v : Attribute) : CodeGenerator :=
  if lookupAST gen.StructAST v.Name = none then
    let fieldType := getBasefromSimpleType ( trimNSPrefix v.TypeName) gen.ProtoTree
    let cv := genRustFieldCode v.Name fieldType v.Plural v.Optional (some v.Restriction) false
    { gen with StructAST := (v.Name, cv.1) :: gen.StructAST,
               Field := gen.Field ++
                 genRustStructCode (genRustFieldName v.Name) v.Doc cv.1 cv.2 false }
  else gen

/-- The dynamic dispatch of `GenRust` (`callFuncByName` on the reflected
declaration kind), as a closed match. -/
def genRustStep (gen : CodeGenerator) : ProtoDecl → CodeGenerator
  | .simpleType v => RustSimpleType gen v
  | .complexType v => RustComplexType gen v
  | .group v => RustGroup gen v
  | .attributeGroup v => RustAttributeGroup gen v
  | .element v => RustElement gen v
  | .attribute v => RustAttribute gen v

/-- The generation pass of `GenRust`: reset the naming counter, fold over
the ProtoTree skipping nil entries, and return the accumulated output text
`gen.Field` (file writing is outside the generator state). -/
def GenRust (tree : List (Option ProtoDecl)) : String :=
  (tree.foldl
    (fun g o => match o with | none => g | some d => genRustStep g d)
    { ProtoTree := tree, StructAST := [], Field := "", fieldNameCount := fun _ => 0 }).Field

/-! ### Embedding of the minInclusive/maxInclusive reader handlers -/

/-- Reader state (`Options`): one stack per declaration kind, modelled as
lists with the top at the head (the Stack type itself is not among the
embedded files; its push/pop/peek/len contract is taken from the spec,
§4.1). -/
structure Options where
  SimpleTypeStack : List SimpleType := []
  ElementStack : List Element := []
  ProtoTree : List (Option ProtoDecl) := []
  CurrentEle : String := ""

/-- The body of the attribute loop of `OnMinInclusive`: for a `value`
attribute, when a SimpleType context is open, store the parsed facet value
(the parse error is discarded) and set the presence flag. -/
def onMinStep (o : Options) (attr : String × String) : Options :=
  if attr.1 = "value" then
    match o.SimpleTypeStack with
    | [] => o
    | st :: rest =>
      { o with SimpleTypeStack :=
          { st with Restriction :=
              { st.Restriction with Min := goParseFloat attr.2, hasMin := true } } :: rest }
  else o

/-- `OnMinInclusive`: the attribute loop of the start handler. -/
def OnMinInclusive (opt : Options) (attrs : List (String × String)) : Options :=
  attrs.foldl onMinStep opt

/-- The body of the attribute loop of `OnMaxInclusive` (identical to
`onMinStep` with the `Max` facet). -/
def onMaxStep (o : Options) (attr : String × String) : Options :=
  if attr.1 = "value" then
    match o.SimpleTypeStack with
    | [] => o
    | st :: rest =>
      { o with SimpleTypeStack :=
          { st with Restriction :=
              { st.Restriction with Max := goParseFloat attr.2, hasMax := true } } :: rest }
  else o

/-- `OnMaxInclusive`: the attribute loop of the start handler. -/
def OnMaxInclusive (opt : Options) (attrs : List (String × String)) : Options :=
  attrs.foldl onMaxStep opt

/-- `EndMinInclusive`: when both a SimpleType and an Element context are
open, pop the SimpleType, resolve its base through the Type Resolver and
assign the result as the top Element's type; on a resolver error the error
is returned and `CurrentEle` is left unchanged. -/
def EndMinInclusive (opt : Options) : Options × Option String :=
  if opt.SimpleTypeStack.length > 0 ∧ opt.ElementStack.length > 0 then
    match opt.SimpleTypeStack, opt.ElementStack with
    | st :: sts, el :: els =>
      let r := GetValueType st.Base opt.ProtoTree
      let opt2 := { opt with SimpleTypeStack := sts,
                             ElementStack := { el with TypeName := r.1 } :: els }
      match r.2 with
      | some e => (opt2, some e)
      | none => ({ opt2 with CurrentEle := "" }, none)
    | _, _ => (opt, none)
  else (opt, none)

/-- `EndMaxInclusive`: identical to `EndMinInclusive`. -/
def EndMaxInclusive (opt : Options) : Options × Option String :=
  if opt.SimpleTypeStack.length > 0 ∧ opt.ElementStack.length > 0 then
    match opt.SimpleTypeStack, opt.ElementStack with
    | st :: sts, el :: els =>
      let r := GetValueType st.Base opt.ProtoTree
      let opt2 := { opt with SimpleTypeStack := sts,
                             ElementStack := { el with TypeName := r.1 } :: els }
      match r.2 with
      | some e => (opt2, some e)
      | none => ({ opt2 with CurrentEle := "" }, none)
    | _, _ => (opt, none)
  else (opt, none)

/-! ### C1: order and selection of the inline validation checks -/

/-- C1 (amended): for a field whose resolved type is built-in and whose
restriction is non-null, the emitted validation text is exactly the
concatenation, in this fixed order, of the minimum-length check (1001) when
`hasMinLength` is set, the maximum-length check (1002) when `hasMaxLength`
is set, the minimum-value check (1003) when `hasMin` is set, the
maximum-value check (1004) when `hasMax` is set, and the pattern check
(1005) when the pattern is present AND the resolved field type is the
string primitive; every check whose condition fails is omitted. -/
theorem c1_builtin_checks_fixed_order (name ftype : String) (plural optional untagged : Bool)
    (r : Restriction) (h : isRustBuiltInType (genRustFieldType ftype) = true) :
    (genRustFieldCode name ftype plural optional (some r) untagged).2 =
      (if r.hasMinLength then rustMinLengthCheck (genRustFieldName name) r.MinLength else "") ++
      (if r.hasMaxLength then rustMaxLengthCheck (genRustFieldName name) r.MaxLength else "") ++
      (if r.hasMin then rustMinValueCheck (genRustFieldName name) r.Min else "") ++
      (if r.hasMax then rustMaxValueCheck (genRustFieldName name) r.Max else "") ++
      (match r.Pattern with
       | some p =>
         if genRustFieldType ftype = "String" then
           rustPatternCheck (genRustFieldName name) (escapeRustString p)
         else ""
       | none => "") := by
  simp only [genRustFieldCode, h, if_true]

/-- Witness for `c1_builtin_checks_fixed_order` at a concrete restricted
string field with every presence flag set. -/
theorem c1_builtin_checks_fixed_order_witness :
    isRustBuiltInType (genRustFieldType "String") = true ∧
    (genRustFieldCode "x" "String" false false
        (some { hasMinLength := true, MinLength := 3, hasMaxLength := true, MaxLength := 7,
                hasMin := true, Min := 5, hasMax := true, Max := 10,
                Pattern := some "p", Enum := [] }) false).2 =
      (if true then rustMinLengthCheck (genRustFieldName "x") 3 else "") ++
      (if true then rustMaxLengthCheck (genRustFieldName "x") 7 else "") ++
      (if true then rustMinValueCheck (genRustFieldName "x") 5 else "") ++
      (if true then rustMaxValueCheck (genRustFieldName "x") 10 else "") ++
      (if genRustFieldType "String" = "String" then
         rustPatternCheck (genRustFieldName "x") (escapeRustString "p")
       else "") :=
  ⟨by decide,
   c1_builtin_checks_fixed_order "x" "String" false false false
     { hasMinLength := true, MinLength := 3, hasMaxLength := true, MaxLength := 7,
       hasMin := true, Min := 5, hasMax := true, Max := 10,
       Pattern := some "p", Enum := [] } (by decide)⟩

/-- C1 counterexample: for the built-in numeric type `f64` with the pattern
presence flag set (and no other flag), the emitted validation text is empty:
the 1005 pattern check is omitted even though its presence flag is set,
because the code additionally requires the resolved type to be `String`. -/
theorem c1_pattern_flag_counterexample :
    isRustBuiltInType (genRustFieldType "f64") = true ∧
    ({ Pattern := some "a+" } : Restriction).Pattern ≠ none ∧
    (genRustFieldCode "x" "f64" false false (some { Pattern := some "a+" }) false).2 = "" := by
  refine ⟨by decide, by decide, rfl⟩

/-! ### C2: plural/optional composition of inline checks (code bug) -/

/-- C2 failing input: a plural, optional field of the built-in type `String`
with a minimum-length restriction.  The emitted field is
`Option<Vec<String>>`, yet the emitted inline check dereferences
`self.score` directly: it neither skips an absent value nor iterates the
sequence elements (the spec requires both; the emitted Rust does not even
compile, since `Option` has no `chars` method). -/
theorem c2_builtin_checks_ignore_plural_optional :
    (genRustFieldCode "score" "String" true true
        (some { hasMinLength := true, MinLength := 3 }) false).1 =
      "\n#[cfg_attr( feature = \"derive_serde\", serde(rename = \"score\", skip_serializing_if = \"Option::is_none\") )]\npub score: Option<Vec<String>>," ∧
    (genRustFieldCode "score" "String" true true
        (some { hasMinLength := true, MinLength := 3 }) false).2 =
      "\nif self.score.chars().count() < 3 \x7b\nreturn Err(ValidationError::new(1001, \"score is shorter than the minimum length of 3\".to_string()));\n\x7d" :=
  ⟨rfl, rfl⟩

/-! ### C5: complex-type base handling -/

/-- C5 (amended): for a ComplexType with a non-empty base, if the base is
built-in the base contribution is exactly one wrapped field named `value`
carrying the resolved base type (no flatten marker); if the base is not
built-in the contribution is exactly one flattened field whose name derives
from the resolved base type (and can therefore itself be `value` when the
base normalizes to it); the contribution is appended after the four field
loops in the memoized record text. -/
theorem c5_complex_base (tree : List (Option ProtoDecl)) (v : ComplexType) (h : v.Base ≠ "") :
    (isRustBuiltInType v.Base = true →
      rustComplexBase tree v =
        genRustFieldCode "value" (getBasefromSimpleType ( trimNSPrefix v.Base) tree)
          false false none false ∧
      (rustComplexBase tree v).1 =
        "\n#[cfg_attr( feature = \"derive_serde\", serde(rename = \"$value\") )]\npub value: " ++
          genRustFieldType (getBasefromSimpleType ( trimNSPrefix v.Base) tree) ++ ",") ∧
    (isRustBuiltInType v.Base = false →
      (rustComplexBase tree v).1 =
        "\t#[cfg_attr( feature = \"derive_serde\", serde(flatten) )]\n\tpub " ++
          genRustFieldName (getBasefromSimpleType ( trimNSPrefix v.Base) tree) ++ ": " ++
          getBasefromSimpleType ( trimNSPrefix v.Base) tree ++ ",\n") ∧
    (∀ gen : CodeGenerator, gen.ProtoTree = tree →
      lookupAST gen.StructAST v.Name = none →
      (RustComplexType gen v).StructAST =
        (v.Name, (rustComplexFields tree v).1 ++ (rustComplexBase tree v).1) :: gen.StructAST) := by
  refine ⟨fun hb => ⟨?_, ?_⟩, fun hb => ?_, fun gen ht hm => ?_⟩
  · simp [rustComplexBase, h, hb]
  · simp only [rustComplexBase, h, hb, if_true, ne_eq, not_false_iff, if_pos]
    rfl
  · simp only [rustComplexBase, h, hb, ne_eq, not_false_iff, if_pos, Bool.false_eq_true,
      if_false]
  · subst ht
    simp [RustComplexType, hm]

/-- Witness for `c5_complex_base`: a built-in base (`String`) and, through a
second application, a non-built-in base (`MyBase`), both on an empty
ProtoTree. -/
theorem c5_complex_base_witness :
    (({ Name := "A", Base := "String" } : ComplexType).Base ≠ "" ∧
      (isRustBuiltInType "String" = true →
        rustComplexBase [] { Name := "A", Base := "String" } =
          genRustFieldCode "value" (getBasefromSimpleType ( trimNSPrefix "String") [])
            false false none false ∧
        (rustComplexBase [] { Name := "A", Base := "String" }).1 =
          "\n#[cfg_attr( feature = \"derive_serde\", serde(rename = \"$value\") )]\npub value: " ++
            genRustFieldType (getBasefromSimpleType ( trimNSPrefix "String") []) ++ ",")) ∧
    (({ Name := "B", Base := "MyBase" } : ComplexType).Base ≠ "" ∧
      (isRustBuiltInType "MyBase" = false →
        (rustComplexBase [] { Name := "B", Base := "MyBase" }).1 =
          "\t#[cfg_attr( feature = \"derive_serde\", serde(flatten) )]\n\tpub " ++
            genRustFieldName (getBasefromSimpleType ( trimNSPrefix "MyBase") []) ++ ": " ++
            getBasefromSimpleType ( trimNSPrefix "MyBase") [] ++ ",\n")) :=
  ⟨⟨by decide, (c5_complex_base [] { Name := "A", Base := "String" } (by decide)).1⟩,
   ⟨by decide, (c5_complex_base [] { Name := "B", Base := "MyBase" } (by decide)).2.1⟩⟩

/-- C5 counterexample: a ComplexType whose non-built-in base is the raw name
`value` produces a flattened base field that IS named `value`, contradicting
the claim that the non-built-in branch "contains no base-derived field named
value". -/
theorem c5_value_base_counterexample :
    isRustBuiltInType "value" = false ∧
    (rustComplexBase [] { Name := "CT", Base := "value" }).1 =
      "\t#[cfg_attr( feature = \"derive_serde\", serde(flatten) )]\n\tpub value: value,\n" :=
  ⟨by decide, rfl⟩

/-! ### C6: enumeration simple types -/

/-- C6: a SimpleType that is neither a list nor a union, whose base is the
string primitive and whose enumeration facet is non-empty, emits a tagged
choice (`genRustEnumCode`) with exactly one tag per enumeration literal,
each tag named `Code` followed by the upper-cased literal (`rustEnumTag`),
and records the enum field content in the memo; the plain-restricted-base
record path is not taken.  No memoization guard applies on this path. -/
theorem c6_enum_simple_type (gen : CodeGenerator) (v : SimpleType)
    (hL : v.List = false) (hU : v.Union = false)
    (hE : v.Restriction.Enum ≠ []) (hB : v.Base = "String") :
    (RustSimpleType gen v).Field =
      gen.Field ++
        genRustEnumCode (genRustStructName gen.fieldNameCount v.Name true).1
          (genFieldComment v.Name v.Doc "//")
          (strJoin (v.Restriction.Enum.map rustEnumTag)) ∧
    (RustSimpleType gen v).StructAST =
      (v.Name, strJoin (v.Restriction.Enum.map rustEnumTag)) :: gen.StructAST := by
  constructor <;> simp [RustSimpleType, hL, hU, hE, hB]

/-- Witness for `c6_enum_simple_type` at a concrete two-literal enumeration. -/
theorem c6_enum_simple_type_witness :
    (RustSimpleType { ProtoTree := [] }
        { Name := "Kind", Base := "String", Restriction := { Enum := ["a", "b"] } }).Field =
      ("" : String) ++
        genRustEnumCode
          (genRustStructName (fun _ => 0) "Kind" true).1
          (genFieldComment "Kind" "" "//")
          (strJoin ((["a", "b"] : List String).map rustEnumTag)) ∧
    (RustSimpleType { ProtoTree := [] }
        { Name := "Kind", Base := "String", Restriction := { Enum := ["a", "b"] } }).StructAST =
      ("Kind", strJoin ((["a", "b"] : List String).map rustEnumTag)) :: [] :=
  c6_enum_simple_type { ProtoTree := [] }
    { Name := "Kind", Base := "String", Restriction := { Enum := ["a", "b"] } }
    rfl rfl (by decide) rfl

/-! ### C3: declaration memoization -/

/-- C3 (amended): when a declaration's name is already a key of the
`StructAST` memo, every backend handler leaves the generator state (and in
particular the accumulated output) unchanged — EXCEPT the `RustSimpleType`
enumeration path (non-empty enumeration facet with string base), which
carries no memoization guard and re-emits; the SimpleType conjunct is
therefore restricted to declarations outside that path. -/
theorem c3_memoized_names_not_reemitted (gen : CodeGenerator) :
    (∀ v : SimpleType, lookupAST gen.StructAST v.Name ≠ none →
      ¬(v.Restriction.Enum ≠ [] ∧ v.Base = "String") →
      RustSimpleType gen v = gen) ∧
    (∀ v : ComplexType, lookupAST gen.StructAST v.Name ≠ none → RustComplexType gen v = gen) ∧
    (∀ v : Group, lookupAST gen.StructAST v.Name ≠ none → RustGroup gen v = gen) ∧
    (∀ v : AttributeGroup, lookupAST gen.StructAST v.Name ≠ none →
      RustAttributeGroup gen v = gen) ∧
    (∀ v : Element, lookupAST gen.StructAST v.Name ≠ none → RustElement gen v = gen) ∧
    (∀ v : Attribute, lookupAST gen.StructAST v.Name ≠ none → RustAttribute gen v = gen) := by
  refine ⟨fun v hm he => ?_, fun v hm => ?_, fun v hm => ?_, fun v hm => ?_,
    fun v hm => ?_, fun v hm => ?_⟩
  · simp only [RustSimpleType, hm, and_false, if_false, if_neg he]
    split <;> rfl
  · simp [RustComplexType, hm]
  · simp [RustGroup, hm]
  · simp [RustAttributeGroup, hm]
  · simp [RustElement, hm]
  · simp [RustAttribute, hm]

/-- Witness for `c3_memoized_names_not_reemitted`: a memoized plain
SimpleType and a memoized Element are both skipped. -/
theorem c3_memoized_names_not_reemitted_witness :
    RustSimpleType { ProtoTree := [], StructAST := [("T", "x")], Field := "OUT" }
        { Name := "T", Base := "u8" } =
      { ProtoTree := [], StructAST := [("T", "x")], Field := "OUT" } ∧
    RustElement { ProtoTree := [], StructAST := [("T", "x")], Field := "OUT" }
        { Name := "T", TypeName := "u8" } =
      { ProtoTree := [], StructAST := [("T", "x")], Field := "OUT" } :=
  ⟨(c3_memoized_names_not_reemitted
      { ProtoTree := [], StructAST := [("T", "x")], Field := "OUT" }).1
      { Name := "T", Base := "u8" } (by decide) (by decide),
   (c3_memoized_names_not_reemitted
      { ProtoTree := [], StructAST := [("T", "x")], Field := "OUT" }).2.2.2.2.1
      { Name := "T", TypeName := "u8" } (by decide)⟩

/-- C3 counterexample: a SimpleType on the enumeration path whose name is
already memoized is re-emitted — the accumulated output text changes, so
the claim that no handler appends for an already-memoized name is false. -/
theorem c3_enum_reemission_counterexample :
    (RustSimpleType { ProtoTree := [], StructAST := [("T", "x")], Field := "OUT" }
        { Name := "T", Base := "String", Restriction := { Enum := ["A"] } }).Field ≠ "OUT" := by
  decide

/-! ### C8: minInclusive/maxInclusive end handlers -/

/-- C8: for an end event of `minInclusive` (respectively `maxInclusive`),
when both context stacks are non-empty the top SimpleType is popped, its
base is resolved through the Type Resolver and the result is assigned as
the type of the top Element; when either stack is empty the handler is the
identity and returns no error. -/
theorem c8_end_inclusive_stack_discipline (opt : Options) :
    (∀ st sts el els,
      opt.SimpleTypeStack = st :: sts → opt.ElementStack = el :: els →
      ((EndMinInclusive opt).1.SimpleTypeStack = sts ∧
       (EndMinInclusive opt).1.ElementStack =
         { el with TypeName := (GetValueType st.Base opt.ProtoTree).1 } :: els) ∧
      ((EndMaxInclusive opt).1.SimpleTypeStack = sts ∧
       (EndMaxInclusive opt).1.ElementStack =
         { el with TypeName := (GetValueType st.Base opt.ProtoTree).1 } :: els)) ∧
    ((opt.SimpleTypeStack = [] ∨ opt.ElementStack = []) →
      EndMinInclusive opt = (opt, none) ∧ EndMaxInclusive opt = (opt, none)) := by
  constructor
  · intro st sts el els hS hE
    rcases h2 : (GetValueType st.Base opt.ProtoTree).2 with _ | e <;>
      simp [EndMinInclusive, EndMaxInclusive, hS, hE, h2]
  · rintro (hS | hE)
    · simp [EndMinInclusive, EndMaxInclusive, hS]
    · simp [EndMinInclusive, EndMaxInclusive, hE]

/-- Concrete reader state for the C8 witness: singleton stacks. -/
def c8OptFull : Options :=
  { SimpleTypeStack := [{ Name := "S", Base := "u8" }]
    ElementStack := [{ Name := "E" }]
    ProtoTree := [] }

/-- Concrete reader state for the C8 witness: empty SimpleType stack. -/
def c8OptNoST : Options :=
  { ElementStack := [{ Name := "E" }] }

/-- Witness for `c8_end_inclusive_stack_discipline` on singleton stacks (and,
through the second conjunct, on an empty SimpleType stack). -/
theorem c8_end_inclusive_stack_discipline_witness :
    (((EndMinInclusive c8OptFull).1.SimpleTypeStack = [] ∧
      (EndMinInclusive c8OptFull).1.ElementStack =
        [{ ({ Name := "E" } : Element) with
            TypeName := (GetValueType "u8" c8OptFull.ProtoTree).1 }]) ∧
     ((EndMaxInclusive c8OptFull).1.SimpleTypeStack = [] ∧
      (EndMaxInclusive c8OptFull).1.ElementStack =
        [{ ({ Name := "E" } : Element) with
            TypeName := (GetValueType "u8" c8OptFull.ProtoTree).1 }])) ∧
    (EndMinInclusive c8OptNoST = (c8OptNoST, none) ∧
     EndMaxInclusive c8OptNoST = (c8OptNoST, none)) :=
  ⟨(c8_end_inclusive_stack_discipline c8OptFull).1
      { Name := "S", Base := "u8" } [] { Name := "E" } [] rfl rfl,
   (c8_end_inclusive_stack_discipline c8OptNoST).2 (Or.inl rfl)⟩

/-! ### C9: minInclusive/maxInclusive start handlers -/

/-- Cumulative effect of the `value`-attribute assignments of
`OnMinInclusive` on the top SimpleType. -/
def applyMinVals (st : SimpleType) (vs : List String) : SimpleType :=
  vs.foldl
    (fun s v =>
      { s with Restriction := { s.Restriction with Min := goParseFloat v, hasMin := true } }) st

/-- Cumulative effect of the `value`-attribute assignments of
`OnMaxInclusive` on the top SimpleType. -/
def applyMaxVals (st : SimpleType) (vs : List String) : SimpleType :=
  vs.foldl
    (fun s v =>
      { s with Restriction := { s.Restriction with Max := goParseFloat v, hasMax := true } }) st

theorem onMin_stack_eq (attrs : List (String × String)) :
    ∀ (opt : Options) (st : SimpleType) (sts : List SimpleType),
      opt.SimpleTypeStack = st :: sts →
      (OnMinInclusive opt attrs).SimpleTypeStack =
        applyMinVals st ((attrs.filter (fun x => x.1 = "value")).map Prod.snd) :: sts := by
  induction attrs with
  | nil => intro opt st sts h; simpa [OnMinInclusive, applyMinVals] using h
  | cons a as ih =>
    intro opt st sts h
    by_cases ha : a.1 = "value"
    · have hstep : (onMinStep opt a).SimpleTypeStack =
          { st with Restriction :=
              { st.Restriction with Min := goParseFloat a.2, hasMin := true } } :: sts := by
        simp [onMinStep, ha, h]
      have := ih (onMinStep opt a) _ sts hstep
      simpa [OnMinInclusive, List.filter_cons, ha, applyMinVals] using this
    · have hstep : (onMinStep opt a).SimpleTypeStack = st :: sts := by
        simp [onMinStep, ha, h]
      have := ih (onMinStep opt a) _ sts hstep
      simpa [OnMinInclusive, List.filter_cons, ha] using this

theorem onMax_stack_eq (attrs : List (String × String)) :
    ∀ (opt : Options) (st : SimpleType) (sts : List SimpleType),
      opt.SimpleTypeStack = st :: sts →
      (OnMaxInclusive opt attrs).SimpleTypeStack =
        applyMaxVals st ((attrs.filter (fun x => x.1 = "value")).map Prod.snd) :: sts := by
  induction attrs with
  | nil => intro opt st sts h; simpa [OnMaxInclusive, applyMaxVals] using h
  | cons a as ih =>
    intro opt st sts h
    by_cases ha : a.1 = "value"
    · have hstep : (onMaxStep opt a).SimpleTypeStack =
          { st with Restriction :=
              { st.Restriction with Max := goParseFloat a.2, hasMax := true } } :: sts := by
        simp [onMaxStep, ha, h]
      have := ih (onMaxStep opt a) _ sts hstep
      simpa [OnMaxInclusive, List.filter_cons, ha, applyMaxVals] using this
    · have hstep : (onMaxStep opt a).SimpleTypeStack = st :: sts := by
        simp [onMaxStep, ha, h]
      have := ih (onMaxStep opt a) _ sts hstep
      simpa [OnMaxInclusive, List.filter_cons, ha] using this

theorem applyMinVals_append_last (vs : List String) :
    ∀ (st : SimpleType) (v : String),
      applyMinVals st (vs ++ [v]) =
        { st with Restriction :=
            { st.Restriction with Min := goParseFloat v, hasMin := true } } := by
  induction vs with
  | nil => intro st v; rfl
  | cons u us ih => intro st v; simpa [applyMinVals] using ih _ v

theorem applyMaxVals_append_last (vs : List String) :
    ∀ (st : SimpleType) (v : String),
      applyMaxVals st (vs ++ [v]) =
        { st with Restriction :=
            { st.Restriction with Max := goParseFloat v, hasMax := true } } := by
  induction vs with
  | nil => intro st v; rfl
  | cons u us ih => intro st v; simpa [applyMaxVals] using ih _ v

/-- C9: for a `minInclusive` (resp. `maxInclusive`) start event carrying a
`value` attribute while a SimpleType context is open, the presence flag is
set unconditionally and the stored value is whatever the discarded-error
parse returns — in particular zero whenever the literal is malformed. -/
theorem c9_malformed_facet_zero (opt : Options) (attrs : List (String × String))
    (st : SimpleType) (sts : List SimpleType) (vs : List (String × String))
    (a : String × String)
    (hstack : opt.SimpleTypeStack = st :: sts)
    (hfilter : attrs.filter (fun x => x.1 = "value") = vs ++ [a]) :
    (OnMinInclusive opt attrs).SimpleTypeStack =
      { st with Restriction :=
          { st.Restriction with Min := goParseFloat a.2, hasMin := true } } :: sts ∧
    (OnMaxInclusive opt attrs).SimpleTypeStack =
      { st with Restriction :=
          { st.Restriction with Max := goParseFloat a.2, hasMax := true } } :: sts ∧
    (parseFloatQ a.2 = none → goParseFloat a.2 = 0) := by
  refine ⟨?_, ?_, fun h => by simp [goParseFloat, h]⟩
  · rw [onMin_stack_eq attrs opt st sts hstack, hfilter]
    simp [applyMinVals_append_last]
  · rw [onMax_stack_eq attrs opt st sts hstack, hfilter]
    simp [applyMaxVals_append_last]

/-- Witness for `c9_malformed_facet_zero` at the malformed literal `abc`. -/
theorem c9_malformed_facet_zero_witness :
    ((OnMinInclusive { SimpleTypeStack := [{ Name := "S" }] } [("value", "abc")]).SimpleTypeStack =
      [{ ({ Name := "S" } : SimpleType) with Restriction :=
          { ({ Name := "S" } : SimpleType).Restriction with
              Min := goParseFloat "abc", hasMin := true } }] ∧
     (OnMaxInclusive { SimpleTypeStack := [{ Name := "S" }] } [("value", "abc")]).SimpleTypeStack =
      [{ ({ Name := "S" } : SimpleType) with Restriction :=
          { ({ Name := "S" } : SimpleType).Restriction with
              Max := goParseFloat "abc", hasMax := true } }] ∧
     (parseFloatQ "abc" = none → goParseFloat "abc" = 0)) ∧
    parseFloatQ "abc" = none ∧ goParseFloat "abc" = 0 :=
  ⟨c9_malformed_facet_zero { SimpleTypeStack := [{ Name := "S" }] } [("value", "abc")]
      { Name := "S" } [] [] ("value", "abc") rfl rfl,
   rfl, rfl⟩

/-! ### C7: union member fields share one field name -/

theorem genRustFieldCode_plain_content (n ft : String) (r : Option Restriction) :
    (genRustFieldCode n ft false false r false).1 =
      "\n#[cfg_attr( feature = \"derive_serde\", serde(rename = \"" ++ genRustFieldRename n ++
      "\") )]\npub " ++ genRustFieldName n ++ ": " ++ genRustFieldType ft ++ "," := rfl

/-- C7: a union SimpleType derives every member field's name from the union
declaration's own name, so with at least two members the memoized record
text declares the same `pub` field name (namely `genRustFieldName v.Name`)
more than once. -/
theorem c7_union_identical_field_names (gen : CodeGenerator) (v : SimpleType)
    (hU : v.Union = true) (hL : v.List = false)
    (hlen : 2 ≤ v.MemberTypes.length)
    (hmemo : lookupAST gen.StructAST v.Name = none) :
    ∃ pre mid post : String,
      (RustSimpleType gen v).StructAST =
        (v.Name,
          pre ++ ("\npub " ++ genRustFieldName v.Name ++ ": ") ++ mid ++
            ("\npub " ++ genRustFieldName v.Name ++ ": ") ++ post) :: gen.StructAST := by
  have hne : v.MemberTypes ≠ [] := by
    intro h
    rw [h] at hlen
    exact absurd hlen (by decide)
  have hplen : (toSortedPairs v.MemberTypes).length = v.MemberTypes.length := by
    unfold toSortedPairs
    exact (List.perm_insertionSort _ _).length_eq
  rcases hsp : toSortedPairs v.MemberTypes with _ | ⟨⟨k₁, t₁⟩, _ | ⟨⟨k₂, t₂⟩, ps⟩⟩
  · rw [hsp] at hplen
    simp at hplen
    omega
  · rw [hsp] at hplen
    simp at hplen
    omega
  have hB : ∀ t : String,
      ("\") )]" : String) ++ ("\npub " ++ t) = "\") )]\npub " ++ t := by
    intro t
    rw [← String.append_assoc]
    rfl
  simp only [RustSimpleType, hL, hU, hne, hmemo, Bool.false_eq_true, false_and, if_false,
    ne_eq, not_false_iff, and_true, true_and, if_true, if_pos]
  refine ⟨"\n#[cfg_attr( feature = \"derive_serde\", serde(rename = \"" ++
      genRustFieldRename v.Name ++ "\") )]",
    genRustFieldType (if t₁ = "" then getBasefromSimpleType k₁ gen.ProtoTree else t₁) ++ "," ++
      ("\n#[cfg_attr( feature = \"derive_serde\", serde(rename = \"" ++
        genRustFieldRename v.Name ++ "\") )]"),
    genRustFieldType (if t₂ = "" then getBasefromSimpleType k₂ gen.ProtoTree else t₂) ++ "," ++
      (rustUnionFields gen.ProtoTree v.Name v.Restriction ps).1, ?_⟩
  rw [hsp]
  simp only [rustUnionFields, genRustFieldCode_plain_content]
  simp only [String.append_assoc, hB]

/-- Witness for `c7_union_identical_field_names` at a concrete two-member
union. -/
theorem c7_union_identical_field_names_witness :
    ∃ pre mid post : String,
      (RustSimpleType { ProtoTree := [] }
          { Name := "U", Union := true,
            MemberTypes := [("a", "String"), ("b", "i32")] }).StructAST =
        ("U",
          pre ++ ("\npub " ++ genRustFieldName "U" ++ ": ") ++ mid ++
            ("\npub " ++ genRustFieldName "U" ++ ": ") ++ post) :: [] :=
  c7_union_identical_field_names { ProtoTree := [] }
    { Name := "U", Union := true, MemberTypes := [("a", "String"), ("b", "i32")] }
    rfl rfl (by decide) rfl

/-! ### C4: uniqueness counter of structural names -/

/-- Successive calls of `genRustStructName` with `unique` set, threading the
global counter (which `GenRust` resets at the start of a run). -/
def structNamesGo : List String → (String → Nat) → List String
  | [], _ => []
  | n :: ns, cnt =>
    (genRustStructName cnt n true).1 :: structNamesGo ns (genRustStructName cnt n true).2

/-- The identifiers produced by a sequence of unique `genRustStructName`
calls within one generation run (fresh counter). -/
def structNamesRun (names : List String) : List String :=
  structNamesGo names (fun _ => 0)

/-- Counter state after a sequence of unique `genRustStructName` calls. -/
def countFold : List String → (String → Nat) → (String → Nat)
  | [], cnt => cnt
  | n :: ns, cnt => countFold ns (genRustStructName cnt n true).2

theorem structNamesGo_append (xs : List String) :
    ∀ (ys : List String) (cnt : String → Nat),
      structNamesGo (xs ++ ys) cnt =
        structNamesGo xs cnt ++ structNamesGo ys (countFold xs cnt) := by
  induction xs with
  | nil => intro ys cnt; rfl
  | cons n ns ih =>
    intro ys cnt
    simp only [List.cons_append, structNamesGo, List.append_eq, ih, countFold]

theorem structNamesGo_length (xs : List String) :
    ∀ cnt : String → Nat, (structNamesGo xs cnt).length = xs.length := by
  induction xs with
  | nil => intro cnt; rfl
  | cons n ns ih => intro cnt; simp [structNamesGo, ih]

theorem countFold_apply (xs : List String) :
    ∀ (cnt : String → Nat) (s : String),
      countFold xs cnt s = cnt s + (xs.map genRustStructNameCore).count s := by
  induction xs with
  | nil => intro cnt s; simp [countFold]
  | cons n ns ih =>
    intro cnt s
    have hbump : (genRustStructName cnt n true).2 s =
        if s = genRustStructNameCore n then cnt (genRustStructNameCore n) + 1 else cnt s := rfl
    rw [countFold, ih, hbump]
    by_cases hs : s = genRustStructNameCore n
    · subst hs
      simp only [if_pos rfl, List.map_cons, List.count_cons, beq_self_eq_true, if_true,
        beq_iff_eq]
      omega
    · simp only [if_neg hs, List.map_cons, List.count_cons, beq_iff_eq,
        if_neg (Ne.symm hs)]
      omega

theorem natDecimalAux_eq_digits (fuel : Nat) :
    ∀ n : Nat, n ≤ fuel →
      natDecimalAux fuel n = ((Nat.digits 10 n).map digitChar).reverse := by
  induction fuel with
  | zero =>
    intro n h
    interval_cases n
    simp [natDecimalAux]
  | succ fuel ih =>
    intro n h
    by_cases h0 : n = 0
    · simp [natDecimalAux, h0]
    · rw [natDecimalAux, if_neg h0,
        ih (n / 10) (by
          have := Nat.div_lt_self (Nat.pos_of_ne_zero h0) (by norm_num : 1 < 10)
          omega),
        Nat.digits_def' (by norm_num : 1 < 10) (Nat.pos_of_ne_zero h0)]
      simp

theorem natDecimal_eq_digits (n : Nat) (h : n ≠ 0) :
    natDecimal n = ⟨((Nat.digits 10 n).map digitChar).reverse⟩ := by
  rw [natDecimal, if_neg h, natDecimalAux_eq_digits n n le_rfl]

theorem natDecimal_ne_empty (n : Nat) (h : n ≠ 0) : natDecimal n ≠ "" := by
  rw [natDecimal_eq_digits n h]
  intro he
  have hd := congrArg String.data he
  simp only [String.data] at hd
  have : Nat.digits 10 n = [] := by
    have := List.reverse_eq_nil_iff.mp (by simpa using hd)
    simpa using this
  exact h (by simpa using Nat.digits_eq_nil_iff_eq_zero.mp this)

theorem digitChar_inj : ∀ d₁ < 10, ∀ d₂ < 10, digitChar d₁ = digitChar d₂ → d₁ = d₂ := by
  decide

theorem map_digitChar_inj (l₁ : List Nat) :
    ∀ l₂ : List Nat, (∀ x ∈ l₁, x < 10) → (∀ x ∈ l₂, x < 10) →
      l₁.map digitChar = l₂.map digitChar → l₁ = l₂ := by
  induction l₁ with
  | nil => intro l₂ _ _ h; cases l₂ <;> simp_all
  | cons x xs ih =>
    intro l₂ h₁ h₂ h
    cases l₂ with
    | nil => simp_all
    | cons y ys =>
      simp only [List.map_cons, List.cons.injEq] at h
      have hx : x = y :=
        digitChar_inj x (h₁ x (by simp)) y (h₂ y (by simp)) h.1
      have := ih ys (fun z hz => h₁ z (by simp [hz])) (fun z hz => h₂ z (by simp [hz])) h.2
      simp [hx, this]

theorem natDecimal_inj {m n : Nat} (h : natDecimal m = natDecimal n) : m = n := by
  by_cases hm : m = 0 <;> by_cases hn : n = 0
  · omega
  · exfalso
    rw [hm, natDecimal_eq_digits n hn] at h
    have hd := congrArg String.data h.symm
    simp only [String.data] at hd
    have hmap : (Nat.digits 10 n).map digitChar = ['0'] := by
      have := congrArg List.reverse hd
      simpa using this
    have hdig : Nat.digits 10 n = [0] := by
      apply map_digitChar_inj (Nat.digits 10 n) [0]
        (fun x hx => Nat.digits_lt_base (by norm_num) hx) (by simp)
      simpa using hmap
    have := Nat.ofDigits_digits 10 n
    rw [hdig] at this
    simp [Nat.ofDigits] at this
    exact hn this.symm
  · exfalso
    rw [hn, natDecimal_eq_digits m hm] at h
    have hd := congrArg String.data h
    simp only [String.data] at hd
    have hmap : (Nat.digits 10 m).map digitChar = ['0'] := by
      have := congrArg List.reverse hd
      simpa using this
    have hdig : Nat.digits 10 m = [0] := by
      apply map_digitChar_inj (Nat.digits 10 m) [0]
        (fun x hx => Nat.digits_lt_base (by norm_num) hx) (by simp)
      simpa using hmap
    have := Nat.ofDigits_digits 10 m
    rw [hdig] at this
    simp [Nat.ofDigits] at this
    exact hm this.symm
  · rw [natDecimal_eq_digits m hm, natDecimal_eq_digits n hn] at h
    have hd := congrArg String.data h
    simp only [String.data] at hd
    have hmap := List.reverse_injective hd
    have hdig := map_digitChar_inj (Nat.digits 10 m) (Nat.digits 10 n)
      (fun x hx => Nat.digits_lt_base (by norm_num) hx)
      (fun x hx => Nat.digits_lt_base (by norm_num) hx) hmap
    exact Nat.digits.injective 10 hdig

theorem string_append_ne_self (s t : String) (h : t ≠ "") : s ≠ s ++ t := by
  intro he
  apply h
  have hd := congrArg String.data he
  rw [String.data_append] at hd
  have hl := congrArg List.length hd
  simp only [List.length_append] at hl
  have : t.data = [] := List.eq_nil_of_length_eq_zero (by omega)
  exact String.ext (by simpa using this)

theorem string_append_left_cancel {s x y : String} (h : s ++ x = s ++ y) : x = y := by
  have hd := congrArg String.data h
  rw [String.data_append, String.data_append] at hd
  exact String.ext (List.append_cancel_left hd)

/-- C4 (amended): within one run the unique `genRustStructName` identifiers
are deterministic in call order: an occurrence of a normalized name is
returned unsuffixed when it is the first such occurrence and with the
numeric suffix k for the k-th occurrence (k at least 2); two occurrences of
the SAME normalized name always receive distinct identifiers — but global
pairwise distinctness fails, since an unrelated raw name can equal a
suffixed identifier. -/
theorem c4_struct_name_determinism (l₁ l₂ l₃ : List String) (a b : String)
    (hab : genRustStructNameCore a = genRustStructNameCore b) :
    ∃ (R₂ R₃ : List String) (rA rB : String),
      structNamesRun (l₁ ++ a :: (l₂ ++ b :: l₃)) =
        structNamesRun l₁ ++ rA :: (R₂ ++ rB :: R₃) ∧
      R₂.length = l₂.length ∧
      rA = (if (l₁.map genRustStructNameCore).count (genRustStructNameCore a) + 1 ≠ 1
            then genRustStructNameCore a ++
              natDecimal ((l₁.map genRustStructNameCore).count (genRustStructNameCore a) + 1)
            else genRustStructNameCore a) ∧
      rB = genRustStructNameCore a ++
        natDecimal ((l₁.map genRustStructNameCore).count (genRustStructNameCore a) +
          (l₂.map genRustStructNameCore).count (genRustStructNameCore a) + 2) ∧
      rA ≠ rB := by
  classical
  set s := genRustStructNameCore a with hs
  set cnt₁ := countFold l₁ (fun _ => 0) with hcnt₁
  set cnt₁' := (genRustStructName cnt₁ a true).2 with hcnt₁'
  set cnt₂ := countFold l₂ cnt₁' with hcnt₂
  have hc₁ : cnt₁ s = (l₁.map genRustStructNameCore).count s := by
    rw [hcnt₁, countFold_apply]
    simp
  have hc₁' : cnt₁' s = (l₁.map genRustStructNameCore).count s + 1 := by
    rw [hcnt₁', genRustStructName]
    simp [← hs, hc₁]
  have hc₂ : cnt₂ s = (l₁.map genRustStructNameCore).count s +
      (l₂.map genRustStructNameCore).count s + 1 := by
    rw [hcnt₂, countFold_apply, hc₁']
    omega
  refine ⟨structNamesGo l₂ cnt₁', structNamesGo l₃ (genRustStructName cnt₂ b true).2,
    (genRustStructName cnt₁ a true).1, (genRustStructName cnt₂ b true).1, ?_, ?_, ?_, ?_, ?_⟩
  · rw [structNamesRun, structNamesGo_append, structNamesGo, structNamesRun,
      structNamesGo_append, structNamesGo]
  · exact structNamesGo_length l₂ cnt₁'
  · rw [genRustStructName]
    simp [← hs, hc₁]
  · rw [genRustStructName]
    simp only [← hs, ← hab, hc₂, if_true]
    have : (l₁.map genRustStructNameCore).count s +
        (l₂.map genRustStructNameCore).count s + 1 + 1 ≠ 1 := by omega
    simp [← hs, this]
  · rw [genRustStructName, genRustStructName]
    simp only [← hs, ← hab, hc₁, hc₂, if_true]
    by_cases h1 : (l₁.map genRustStructNameCore).count s + 1 = 1
    · have h2 : (l₁.map genRustStructNameCore).count s +
          (l₂.map genRustStructNameCore).count s + 1 + 1 ≠ 1 := by omega
      simp only [h1, if_neg (by omega : ¬(1 : Nat) ≠ 1), if_pos h2]
      exact string_append_ne_self s _
        (natDecimal_ne_empty _ (by omega))
    · have h2 : (l₁.map genRustStructNameCore).count s +
          (l₂.map genRustStructNameCore).count s + 1 + 1 ≠ 1 := by omega
      simp only [if_pos h1, if_pos h2]
      intro he
      have := natDecimal_inj (string_append_left_cancel he)
      omega

/-- Witness for `c4_struct_name_determinism` at a concrete collision
sequence. -/
theorem c4_struct_name_determinism_witness :
    ∃ (R₂ R₃ : List String) (rA rB : String),
      structNamesRun (["X"] ++ "Outer:Name" :: ([] ++ "Outer.Name" :: [])) =
        structNamesRun ["X"] ++ rA :: (R₂ ++ rB :: R₃) ∧
      R₂.length = ([] : List String).length ∧
      rA = (if (["X"].map genRustStructNameCore).count (genRustStructNameCore "Outer:Name") + 1 ≠ 1
            then genRustStructNameCore "Outer:Name" ++
              natDecimal ((["X"].map genRustStructNameCore).count
                (genRustStructNameCore "Outer:Name") + 1)
            else genRustStructNameCore "Outer:Name") ∧
      rB = genRustStructNameCore "Outer:Name" ++
        natDecimal ((["X"].map genRustStructNameCore).count (genRustStructNameCore "Outer:Name") +
          (([] : List String).map genRustStructNameCore).count
            (genRustStructNameCore "Outer:Name") + 2) ∧
      rA ≠ rB :=
  c4_struct_name_determinism ["X"] [] [] "Outer:Name" "Outer.Name" (by decide)

/-- C4 counterexample: the sequence of raw names `A`, `A`, `A2` yields the
identifiers `A`, `A2`, `A2` — the suffixed second occurrence of `A`
collides with the unsuffixed first occurrence of `A2`, so the returned
identifiers are NOT pairwise distinct. -/
theorem c4_collision_counterexample :
    structNamesRun ["A", "A", "A2"] = ["A", "A2", "A2"] ∧
    ¬ (structNamesRun ["A", "A", "A2"]).Nodup := by
  constructor
  · decide
  · decide

/-! ### C10: determinism of the generation pass -/

/-- Two simple types that differ only in the iteration order of the
`MemberTypes` map (a Go map has duplicate-free keys, recorded here as the
`Nodup` condition). -/
def SimpleTypeEquiv (x y : SimpleType) : Prop :=
  ∃ m, y = { x with MemberTypes := m } ∧ x.MemberTypes.Perm m ∧
    (x.MemberTypes.map Prod.fst).Nodup

/-- Declarations equal up to the unordered iteration of member-type maps. -/
def declEquiv : ProtoDecl → ProtoDecl → Prop
  | .simpleType x, .simpleType y => SimpleTypeEquiv x y
  | .complexType x, .complexType y => x = y
  | .group x, .group y => x = y
  | .attributeGroup x, .attributeGroup y => x = y
  | .element x, .element y => x = y
  | .attribute x, .attribute y => x = y
  | _, _ => False

/-- `declEquiv` lifted to the nullable ProtoTree entries. -/
def optDeclEquiv : Option ProtoDecl → Option ProtoDecl → Prop
  | none, none => True
  | some d, some e => declEquiv d e
  | _, _ => False

/-- Two ProtoTrees with the same content and order, up to member-map
iteration order. -/
def TreeEquiv (t₁ t₂ : List (Option ProtoDecl)) : Prop :=
  List.Forall₂ optDeclEquiv t₁ t₂

theorem toSortedPairs_perm_eq {m₁ m₂ : List (String × String)}
    (hperm : m₁.Perm m₂) (hnd : (m₁.map Prod.fst).Nodup) :
    toSortedPairs m₁ = toSortedPairs m₂ := by
  haveI i1 : IsTotal (String × String) (fun a b => a.1 ≤ b.1) :=
    ⟨fun a b => le_total a.1 b.1⟩
  haveI i2 : IsTrans (String × String) (fun a b => a.1 ≤ b.1) :=
    ⟨fun a b c h1 h2 => le_trans h1 h2⟩
  haveI i3 : IsAntisymm (String × String) (fun a b => a.1 < b.1) :=
    ⟨fun a b h1 h2 => absurd h2 (lt_asymm h1)⟩
  have p₁ : (toSortedPairs m₁).Perm m₁ := List.perm_insertionSort _ _
  have p₂ : (toSortedPairs m₂).Perm m₂ := List.perm_insertionSort _ _
  have q : (toSortedPairs m₁).Perm (toSortedPairs m₂) :=
    (p₁.trans hperm).trans p₂.symm
  have hs₁ : (toSortedPairs m₁).Sorted (fun a b => a.1 ≤ b.1) :=
    List.sorted_insertionSort _ _
  have hs₂ : (toSortedPairs m₂).Sorted (fun a b => a.1 ≤ b.1) :=
    List.sorted_insertionSort _ _
  have hnd₁ : ((toSortedPairs m₁).map Prod.fst).Nodup :=
    ((p₁.map Prod.fst).nodup_iff).mpr hnd
  have hnd₂ : ((toSortedPairs m₂).map Prod.fst).Nodup := by
    refine ((p₂.map Prod.fst).nodup_iff).mpr ?_
    exact ((hperm.map Prod.fst).nodup_iff).mp hnd
  have key : ∀ l : List (String × String), l.Sorted (fun a b => a.1 ≤ b.1) →
      (l.map Prod.fst).Nodup → l.Sorted (fun a b => a.1 < b.1) := by
    intro l hs hn
    have hne : l.Pairwise (fun a b => a.1 ≠ b.1) := List.pairwise_map.mp hn
    exact (hs.and hne).imp (fun h => lt_of_le_of_ne h.1 h.2)
  exact List.eq_of_perm_of_sorted q (key _ hs₁ hnd₁) (key _ hs₂ hnd₂)

theorem declName_equiv {d e : ProtoDecl} (h : declEquiv d e) : declName d = declName e := by
  cases d <;> cases e <;> simp only [declEquiv] at h
  case simpleType.simpleType =>
    obtain ⟨m, rfl, -, -⟩ := h
    rfl
  all_goals (subst h; rfl)

theorem lookupDecl_equiv {t₁ t₂ : List (Option ProtoDecl)} (h : TreeEquiv t₁ t₂)
    (n : String) : optDeclEquiv (lookupDecl n t₁) (lookupDecl n t₂) := by
  induction h with
  | nil => trivial
  | cons hd tl ih =>
    rename_i o₁ o₂ l₁ l₂
    cases o₁ <;> cases o₂ <;> simp [optDeclEquiv] at hd ⊢
    · exact ih
    · rename_i d₁ d₂
      rw [lookupDecl, lookupDecl, declName_equiv hd]
      by_cases hn : declName d₂ = n
      · simpa [hn, optDeclEquiv] using hd
      · simpa [hn] using ih

theorem resolveBase_equiv {t₁ t₂ : List (Option ProtoDecl)} (h : TreeEquiv t₁ t₂) :
    ∀ (fuel : Nat) (n : String), resolveBase fuel n t₁ = resolveBase fuel n t₂ := by
  intro fuel
  induction fuel with
  | zero => intro n; rfl
  | succ fuel ih =>
    intro n
    have hl := lookupDecl_equiv h n
    rcases e₁ : lookupDecl n t₁ with _ | d₁
    · rcases e₂ : lookupDecl n t₂ with _ | d₂
      · rw [resolveBase, resolveBase, e₁, e₂]
      · rw [e₁, e₂] at hl
        exact hl.elim
    · rcases e₂ : lookupDecl n t₂ with _ | d₂
      · rw [e₁, e₂] at hl
        exact hl.elim
      · rw [e₁, e₂] at hl
        rw [resolveBase, resolveBase, e₁, e₂]
        cases d₁ <;> cases d₂ <;> simp only [optDeclEquiv, declEquiv] at hl
        case simpleType.simpleType x y =>
          obtain ⟨m, rfl, -, -⟩ := hl
          by_cases he : x.Restriction.Enum = [] <;> simp [he, ih]
        all_goals (subst hl; rfl)

theorem getBase_equiv {t₁ t₂ : List (Option ProtoDecl)} (h : TreeEquiv t₁ t₂)
    (n : String) : getBasefromSimpleType n t₁ = getBasefromSimpleType n t₂ := by
  rw [getBasefromSimpleType, getBasefromSimpleType, List.Forall₂.length_eq h,
    resolveBase_equiv h]

/-- Generator states over equivalent trees with identical memo, output and
counter. -/
def genEquiv (g₁ g₂ : CodeGenerator) : Prop :=
  TreeEquiv g₁.ProtoTree g₂.ProtoTree ∧ g₁.StructAST = g₂.StructAST ∧
    g₁.Field = g₂.Field ∧ g₁.fieldNameCount = g₂.fieldNameCount

theorem rustUnionFields_equiv {t₁ t₂ : List (Option ProtoDecl)} (h : TreeEquiv t₁ t₂)
    (n : String) (r : Restriction) :
    ∀ ps, rustUnionFields t₁ n r ps = rustUnionFields t₂ n r ps := by
  intro ps
  induction ps with
  | nil => rfl
  | cons p rest ih =>
    obtain ⟨k, t⟩ := p
    have hg : ∀ s, getBasefromSimpleType s t₁ = getBasefromSimpleType s t₂ := getBase_equiv h
    simp only [rustUnionFields, hg, ih]

theorem RustSimpleType_memberPerm (g : CodeGenerator) (x : SimpleType)
    (m : List (String × String)) (hperm : x.MemberTypes.Perm m)
    (hnd : (x.MemberTypes.map Prod.fst).Nodup) :
    RustSimpleType g { x with MemberTypes := m } = RustSimpleType g x := by
  have e2 : toSortedPairs m = toSortedPairs x.MemberTypes :=
    (toSortedPairs_perm_eq hperm hnd).symm
  have hcond : (m ≠ []) = (x.MemberTypes ≠ []) := by
    apply propext
    exact not_congr
      (by rw [← List.length_eq_zero, ← List.length_eq_zero, hperm.length_eq])
  simp only [RustSimpleType]
  rw [e2]
  simp only [hcond]

theorem RustSimpleType_state_equiv {g₁ g₂ : CodeGenerator} (hg : genEquiv g₁ g₂)
    (x : SimpleType) : genEquiv (RustSimpleType g₁ x) (RustSimpleType g₂ x) := by
  obtain ⟨ht, ha, hf, hc⟩ := hg
  have hgb : ∀ s, getBasefromSimpleType s g₁.ProtoTree = getBasefromSimpleType s g₂.ProtoTree :=
    getBase_equiv ht
  have hu : ∀ ps, rustUnionFields g₁.ProtoTree x.Name x.Restriction ps =
      rustUnionFields g₂.ProtoTree x.Name x.Restriction ps :=
    rustUnionFields_equiv ht x.Name x.Restriction
  simp only [RustSimpleType, hgb, hu, ha, hf, hc]
  by_cases c1 : (x.List = true ∧ lookupAST g₂.StructAST x.Name = none)
  · simp only [if_pos c1]
    exact ⟨ht, rfl, rfl, rfl⟩
  · simp only [if_neg c1]
    by_cases c2 : (x.Union = true ∧ x.MemberTypes ≠ [])
    · simp only [if_pos c2]
      by_cases cm : lookupAST g₂.StructAST x.Name = none
      · simp only [if_pos cm]
        exact ⟨ht, rfl, rfl, rfl⟩
      · simp only [if_neg cm]
        exact ⟨ht, ha, hf, hc⟩
    · simp only [if_neg c2]
      by_cases c3 : (x.Restriction.Enum ≠ [] ∧ x.Base = "String")
      · simp only [if_pos c3]
        exact ⟨ht, rfl, rfl, rfl⟩
      · simp only [if_neg c3]
        by_cases cm : lookupAST g₂.StructAST x.Name = none
        · simp only [if_pos cm]
          exact ⟨ht, rfl, rfl, rfl⟩
        · simp only [if_neg cm]
          exact ⟨ht, ha, hf, hc⟩

theorem RustComplexType_state_equiv {g₁ g₂ : CodeGenerator} (hg : genEquiv g₁ g₂)
    (v : ComplexType) : genEquiv (RustComplexType g₁ v) (RustComplexType g₂ v) := by
  obtain ⟨ht, ha, hf, hc⟩ := hg
  have hgb : ∀ s, getBasefromSimpleType s g₁.ProtoTree = getBasefromSimpleType s g₂.ProtoTree :=
    getBase_equiv ht
  have e1 : rustComplexFields g₁.ProtoTree v = rustComplexFields g₂.ProtoTree v := by
    simp only [rustComplexFields, hgb]
  have e2 : rustComplexBase g₁.ProtoTree v = rustComplexBase g₂.ProtoTree v := by
    simp only [rustComplexBase, hgb]
  simp only [RustComplexType, e1, e2, ha, hf, hc]
  by_cases cm : lookupAST g₂.StructAST v.Name = none
  · simp only [if_pos cm]
    exact ⟨ht, rfl, rfl, rfl⟩
  · simp only [if_neg cm]
    exact ⟨ht, ha, hf, hc⟩

theorem RustGroup_state_equiv {g₁ g₂ : CodeGenerator} (hg : genEquiv g₁ g₂)
    (v : Group) : genEquiv (RustGroup g₁ v) (RustGroup g₂ v) := by
  obtain ⟨ht, ha, hf, hc⟩ := hg
  have hgb : ∀ s, getBasefromSimpleType s g₁.ProtoTree = getBasefromSimpleType s g₂.ProtoTree :=
    getBase_equiv ht
  have e1 : rustGroupFields g₁.ProtoTree v = rustGroupFields g₂.ProtoTree v := by
    simp only [rustGroupFields, hgb]
  simp only [RustGroup, e1, ha, hf, hc]
  by_cases cm : lookupAST g₂.StructAST v.Name = none
  · simp only [if_pos cm]
    exact ⟨ht, rfl, rfl, rfl⟩
  · simp only [if_neg cm]
    exact ⟨ht, ha, hf, hc⟩

theorem RustAttributeGroup_state_equiv {g₁ g₂ : CodeGenerator} (hg : genEquiv g₁ g₂)
    (v : AttributeGroup) : genEquiv (RustAttributeGroup g₁ v) (RustAttributeGroup g₂ v) := by
  obtain ⟨ht, ha, hf, hc⟩ := hg
  have hgb : ∀ s, getBasefromSimpleType s g₁.ProtoTree = getBasefromSimpleType s g₂.ProtoTree :=
    getBase_equiv ht
  have e1 : rustAttributeGroupFields g₁.ProtoTree v = rustAttributeGroupFields g₂.ProtoTree v := by
    simp only [rustAttributeGroupFields, hgb]
  simp only [RustAttributeGroup, e1, ha, hf, hc]
  by_cases cm : lookupAST g₂.StructAST v.Name = none
  · simp only [if_pos cm]
    exact ⟨ht, rfl, rfl, rfl⟩
  · simp only [if_neg cm]
    exact ⟨ht, ha, hf, hc⟩

theorem RustElement_state_equiv {g₁ g₂ : CodeGenerator} (hg : genEquiv g₁ g₂)
    (v : Element) : genEquiv (RustElement g₁ v) (RustElement g₂ v) := by
  obtain ⟨ht, ha, hf, hc⟩ := hg
  have hgb : ∀ s, getBasefromSimpleType s g₁.ProtoTree = getBasefromSimpleType s g₂.ProtoTree :=
    getBase_equiv ht
  simp only [RustElement, hgb, ha, hf, hc]
  by_cases cm : lookupAST g₂.StructAST v.Name = none
  · simp only [if_pos cm]
    exact ⟨ht, rfl, rfl, rfl⟩
  · simp only [if_neg cm]
    exact ⟨ht, ha, hf, hc⟩

theorem RustAttribute_state_equiv {g₁ g₂ : CodeGenerator} (hg : genEquiv g₁ g₂)
    (v : Attribute) : genEquiv (RustAttribute g₁ v) (RustAttribute g₂ v) := by
  obtain ⟨ht, ha, hf, hc⟩ := hg
  have hgb : ∀ s, getBasefromSimpleType s g₁.ProtoTree = getBasefromSimpleType s g₂.ProtoTree :=
    getBase_equiv ht
  simp only [RustAttribute, hgb, ha, hf, hc]
  by_cases cm : lookupAST g₂.StructAST v.Name = none
  · simp only [if_pos cm]
    exact ⟨ht, rfl, rfl, rfl⟩
  · simp only [if_neg cm]
    exact ⟨ht, ha, hf, hc⟩

theorem genRustStep_equiv {g₁ g₂ : CodeGenerator} (hg : genEquiv g₁ g₂)
    {d₁ d₂ : ProtoDecl} (hd : declEquiv d₁ d₂) :
    genEquiv (genRustStep g₁ d₁) (genRustStep g₂ d₂) := by
  cases d₁ <;> cases d₂ <;> simp only [declEquiv] at hd
  case simpleType.simpleType x y =>
    obtain ⟨m, rfl, hperm, hnd⟩ := hd
    show genEquiv (RustSimpleType g₁ x) (RustSimpleType g₂ { x with MemberTypes := m })
    rw [RustSimpleType_memberPerm g₂ x m hperm hnd]
    exact RustSimpleType_state_equiv ⟨hg.1, hg.2.1, hg.2.2.1, hg.2.2.2⟩ x
  case complexType.complexType x y =>
    subst hd
    exact RustComplexType_state_equiv hg x
  case group.group x y =>
    subst hd
    exact RustGroup_state_equiv hg x
  case attributeGroup.attributeGroup x y =>
    subst hd
    exact RustAttributeGroup_state_equiv hg x
  case element.element x y =>
    subst hd
    exact RustElement_state_equiv hg x
  case attribute.attribute x y =>
    subst hd
    exact RustAttribute_state_equiv hg x

theorem genRustFold_equiv {l₁ l₂ : List (Option ProtoDecl)}
    (hl : List.Forall₂ optDeclEquiv l₁ l₂) :
    ∀ {g₁ g₂ : CodeGenerator}, genEquiv g₁ g₂ →
      genEquiv
        (l₁.foldl (fun g o => match o with | none => g | some d => genRustStep g d) g₁)
        (l₂.foldl (fun g o => match o with | none => g | some d => genRustStep g d) g₂) := by
  induction hl with
  | nil => intro g₁ g₂ hg; exact hg
  | cons hd tl ih =>
    intro g₁ g₂ hg
    rename_i o₁ o₂ r₁ r₂
    simp only [List.foldl_cons]
    apply ih
    cases o₁ <;> cases o₂ <;> simp only [optDeclEquiv] at hd
    · exact hg
    · exact genRustStep_equiv hg hd

/-- C10: the accumulated output of a generation run from a fresh state is a
pure function of the ProtoTree — two runs over the same tree are
byte-identical — and it is invariant under the unordered iteration order of
each union's member-type map (the map keys being duplicate-free), the only
unordered collection the pass consumes. -/
theorem c10_generation_deterministic :
    (∀ tree : List (Option ProtoDecl), GenRust tree = GenRust tree) ∧
    (∀ t₁ t₂ : List (Option ProtoDecl), TreeEquiv t₁ t₂ → GenRust t₁ = GenRust t₂) := by
  refine ⟨fun tree => rfl, fun t₁ t₂ h => ?_⟩
  have hg : genEquiv
      { ProtoTree := t₁, StructAST := [], Field := "", fieldNameCount := fun _ => 0 }
      { ProtoTree := t₂, StructAST := [], Field := "", fieldNameCount := fun _ => 0 } :=
    ⟨h, rfl, rfl, rfl⟩
  exact (genRustFold_equiv h hg).2.2.1

/-- First tree of the C10 witness: a union whose member map iterates in one
order. -/
def c10TreeA : List (Option ProtoDecl) :=
  [some (.simpleType { Name := "U", Union := true,
                       MemberTypes := [("a", "String"), ("b", "i32")] }), none]

/-- Second tree of the C10 witness: the same union with the opposite member
iteration order. -/
def c10TreeB : List (Option ProtoDecl) :=
  [some (.simpleType { Name := "U", Union := true,
                       MemberTypes := [("b", "i32"), ("a", "String")] }), none]

/-- Witness for `c10_generation_deterministic` on two concrete trees that
differ only in member-map order. -/
theorem c10_generation_deterministic_witness :
    GenRust c10TreeA = GenRust c10TreeA ∧ GenRust c10TreeA = GenRust c10TreeB :=
  ⟨c10_generation_deterministic.1 c10TreeA,
   c10_generation_deterministic.2 c10TreeA c10TreeB
     (List.Forall₂.cons
       (show declEquiv
          (.simpleType { Name := "U", Union := true,
                         MemberTypes := [("a", "String"), ("b", "i32")] })
          (.simpleType { Name := "U", Union := true,
                         MemberTypes := [("b", "i32"), ("a", "String")] }) from
        ⟨[("b", "i32"), ("a", "String")], rfl, by decide, by decide⟩)
       (List.Forall₂.cons trivial List.Forall₂.nil))⟩

end Xgen
